import Mathlib

/-!
Verification of the Crypto-tracker market-data core: a shallow embedding of
the series reducer (`getReducedData` in `price-chart.tsx`), the search
filter, favorites store, and fetch state transitions of
`crypto-tracker.tsx` / `crypto-detail.tsx`, with theorems settling the
specification claims about them.
-/

set_option maxHeartbeats 1000000

namespace Tracker

/-- The enumerated time-range selector `"24h" | "7d" | "30d" | "90d" | "1y"`. -/
inductive TimeRange where
  | h24
  | d7
  | d30
  | d90
  | y1
  deriving DecidableEq

/-- One raw series point `{ time: number; price: number }`. -/
structure PricePoint where
  time : Int
  price : Rat
  deriving DecidableEq

/-- The per-range reduction target from the spec:
`target(24h)=24, target(7d)=7, target(30d)=30, target(90d)=45, target(1y)=52`. -/
def target : TimeRange → Nat
  | TimeRange.h24 => 24
  | TimeRange.d7 => 7
  | TimeRange.d30 => 30
  | TimeRange.d90 => 45
  | TimeRange.y1 => 52

/-- The `step` computed by `getReducedData` via the if-chain
`Math.max(1, Math.floor(data.length / 24))` etc. (`price-chart.tsx` lines 34-39). -/
def step (n : Nat) : TimeRange → Nat
  | TimeRange.h24 => max 1 (n / 24)
  | TimeRange.d7 => max 1 (n / 7)
  | TimeRange.d30 => max 1 (n / 30)
  | TimeRange.d90 => max 1 (n / 45)
  | TimeRange.y1 => max 1 (n / 52)

/-- Model of JavaScript `Array.prototype.filter` when the callback uses the
index argument: `i` is the zero-based index of the head of the remaining list. -/
def filterIdx {α : Type} (p : Nat → Bool) : List α → Nat → List α
  | [], _ => []
  | a :: as, i => if p i then a :: filterIdx p as (i + 1) else filterIdx p as (i + 1)

/-- `getReducedData` from `price-chart.tsx` (lines 31-47): empty guard, step
computation, decimation filter `data.filter((_, index) => index % step === 0)`,
then the label and price projections.  Label formatting (`formatTime`, which
calls locale date formatting) is abstracted as the parameter `fmt`. -/
def getReducedData (fmt : TimeRange → Int → String) (data : List PricePoint)
    (timeRange : TimeRange) : List String × List Rat :=
  if data.length = 0 then ([], [])
  else
    let s := step data.length timeRange
    let reducedData := filterIdx (fun index => index % s == 0) data 0
    (reducedData.map (fun d => fmt timeRange d.time), reducedData.map (fun d => d.price))

theorem step_pos (n : Nat) (r : TimeRange) : 1 ≤ step n r := by
  cases r <;> exact Nat.le_max_left 1 _

theorem step_eq_target (n : Nat) (r : TimeRange) : step n r = max 1 (n / target r) := by
  cases r <;> rfl

theorem target_ge_two (r : TimeRange) : 2 ≤ target r := by
  cases r <;> decide

theorem filterMap_congr_mem {α β : Type} {f g : α → Option β} :
    ∀ {l : List α}, (∀ a ∈ l, f a = g a) → l.filterMap f = l.filterMap g := by
  intro l
  induction l with
  | nil => intro _; rfl
  | cons a t ih =>
      intro h
      have ha := h a (List.mem_cons_self a t)
      have ht := ih fun b hb => h b (List.mem_cons_of_mem a hb)
      cases hga : g a with
      | none => simp [List.filterMap_cons, ha, hga, ht]
      | some b => simp [List.filterMap_cons, ha, hga, ht]

theorem filterIdx_eq_filterMap {α : Type} (p : Nat → Bool) (l : List α) :
    ∀ i : Nat,
      filterIdx p l i =
        ((List.range' i l.length).filter p).filterMap (fun j => l[j - i]?) := by
  induction l with
  | nil => intro i; simp [filterIdx]
  | cons a t ih =>
      intro i
      have hcong : ∀ j ∈ (List.range' (i + 1) t.length).filter p,
          (a :: t)[j - i]? = t[j - (i + 1)]? := by
        intro j hj
        have hji : i + 1 ≤ j := (List.mem_range'_1.mp (List.mem_of_mem_filter hj)).1
        have he : j - i = (j - (i + 1)) + 1 := by omega
        rw [he, List.getElem?_cons_succ]
      have hr : List.range' i (a :: t).length = i :: List.range' (i + 1) t.length := by
        rw [List.length_cons, List.range'_succ]
      have hstep : filterIdx p (a :: t) i =
          if p i then a :: filterIdx p t (i + 1) else filterIdx p t (i + 1) := rfl
      have htail : filterIdx p t (i + 1) =
          ((List.range' (i + 1) t.length).filter p).filterMap (fun j => (a :: t)[j - i]?) :=
        (ih (i + 1)).trans (filterMap_congr_mem hcong).symm
      rw [hstep, hr, List.filter_cons]
      by_cases hp : p i
      · rw [if_pos hp, if_pos hp]
        have h0 : (a :: t)[i - i]? = some a := by simp
        simp only [List.filterMap_cons, h0]
        rw [htail]
      · rw [if_neg hp, if_neg hp]
        rw [htail]

theorem range_filter_mod (s : Nat) (hs : 0 < s) :
    ∀ n : Nat, (List.range n).filter (fun i => i % s == 0) =
      (List.range ((n + s - 1) / s)).map (fun k => k * s) := by
  intro n
  induction n with
  | zero =>
      have h0 : (0 + s - 1) / s = 0 := Nat.div_eq_of_lt (by omega)
      rw [h0]
      rfl
  | succ n ih =>
      rw [List.range_succ, List.filter_append, ih]
      by_cases hd : n % s = 0
      · have hq : s * (n / s) = n := Nat.mul_div_cancel' (Nat.dvd_of_mod_eq_zero hd)
        have hc1 : (n + 1 + s - 1) / s = n / s + 1 := by
          have he : n + 1 + s - 1 = n + s := by omega
          rw [he, Nat.add_div_right _ hs]
        have hc2 : (n + s - 1) / s = n / s := by
          have h1 : n + s - 1 = s * (n / s) + (s - 1) := by omega
          rw [h1, Nat.mul_add_div hs]
          have h2 : (s - 1) / s = 0 := Nat.div_eq_of_lt (by omega)
          omega
        have hfn : List.filter (fun i => i % s == 0) [n] = [n] := by
          simp [List.filter_cons, hd]
        have hmul : n / s * s = n := by rw [Nat.mul_comm]; exact hq
        rw [hc1, hc2, hfn, List.range_succ, List.map_append]
        simp [hmul]
      · have hn1 : 1 ≤ n := by
          rcases Nat.eq_zero_or_pos n with h | h
          · exact absurd (h ▸ Nat.zero_mod s) hd
          · exact h
        have hnd : ¬ s ∣ n := fun hdvd => hd (Nat.dvd_iff_mod_eq_zero.mp hdvd)
        have hc : (n + 1 + s - 1) / s = (n + s - 1) / s := by
          have e1 : n + 1 + s - 1 = n + s := by omega
          have e2 : n + s - 1 = (n - 1) + s := by omega
          rw [e1, e2, Nat.add_div_right _ hs, Nat.add_div_right _ hs]
          have e3 : n = (n - 1) + 1 := by omega
          have e4 : n / s = (n - 1) / s := by
            conv_lhs => rw [e3]
            rw [Nat.succ_div, ← e3]
            simp [hnd]
          omega
        have hfn : List.filter (fun i => i % s == 0) [n] = [] := by
          simp [List.filter_cons, hd]
        rw [hc, hfn, List.append_nil]

theorem filterIdx_mod_eq {α : Type} (s : Nat) (hs : 0 < s) (l : List α) :
    filterIdx (fun i => i % s == 0) l 0 =
      (List.range ((l.length + s - 1) / s)).filterMap (fun k => l[k * s]?) := by
  rw [filterIdx_eq_filterMap]
  simp only [Nat.sub_zero]
  rw [← List.range_eq_range', range_filter_mod s hs, List.filterMap_map]
  rfl

theorem mul_step_lt {n s k : Nat} (hs : 0 < s) (hk : k < (n + s - 1) / s) : k * s < n := by
  have h2 : (k + 1) * s ≤ ((n + s - 1) / s) * s := Nat.mul_le_mul_right s hk
  have h3 : ((n + s - 1) / s) * s ≤ n + s - 1 := Nat.div_mul_le_self _ _
  have h4 : (k + 1) * s = k * s + s := by ring
  have h5 : 1 ≤ (n + s - 1) / s := by omega
  have h6 : s ≤ n + s - 1 := (Nat.one_le_div_iff hs).mp h5
  omega

theorem length_filterMap_of_all_some {β : Type} (f : Nat → Option β) :
    ∀ L : List Nat, (∀ j ∈ L, (f j).isSome) → (L.filterMap f).length = L.length := by
  intro L
  induction L with
  | nil => intro _; rfl
  | cons j t ih =>
      intro h
      rcases Option.isSome_iff_exists.mp (h j (List.mem_cons_self j t)) with ⟨b, hb⟩
      simp [List.filterMap_cons, hb, ih fun x hx => h x (List.mem_cons_of_mem j hx)]

theorem getElem?_filterMap_of_all_some {β : Type} (f : Nat → Option β) :
    ∀ L : List Nat, (∀ j ∈ L, (f j).isSome) →
      ∀ k : Nat, (L.filterMap f)[k]? = L[k]?.bind f := by
  intro L
  induction L with
  | nil => intro _ k; simp
  | cons j t ih =>
      intro h k
      rcases Option.isSome_iff_exists.mp (h j (List.mem_cons_self j t)) with ⟨b, hb⟩
      cases k with
      | zero => simp [List.filterMap_cons, hb]
      | succ k =>
          simp [List.filterMap_cons, hb, ih (fun x hx => h x (List.mem_cons_of_mem j hx)) k]

theorem all_some (data : List PricePoint) (r : TimeRange) :
    ∀ j ∈ List.range ((data.length + step data.length r - 1) / step data.length r),
      (data[j * step data.length r]?).isSome := by
  intro j hj
  have hj2 := List.mem_range.mp hj
  have hlt := mul_step_lt (lt_of_lt_of_le Nat.zero_lt_one (step_pos data.length r)) hj2
  rw [List.getElem?_eq_getElem hlt]
  rfl

theorem reduced_snd (fmt : TimeRange → Int → String) (data : List PricePoint) (r : TimeRange) :
    (getReducedData fmt data r).2 =
      ((List.range ((data.length + step data.length r - 1) / step data.length r)).filterMap
        (fun k => data[k * step data.length r]?)).map (fun d => d.price) := by
  by_cases h : data.length = 0
  · have hd : data = [] := List.length_eq_zero.mp h
    subst hd
    simp only [List.length_nil]
    have h1 := step_pos 0 r
    have hc : (0 + step 0 r - 1) / step 0 r = 0 := Nat.div_eq_of_lt (by omega)
    rw [hc]
    simp [getReducedData]
  · simp only [getReducedData, if_neg h]
    rw [filterIdx_mod_eq _ (lt_of_lt_of_le Nat.zero_lt_one (step_pos data.length r))]

theorem reduced_fst (fmt : TimeRange → Int → String) (data : List PricePoint) (r : TimeRange) :
    (getReducedData fmt data r).1 =
      ((List.range ((data.length + step data.length r - 1) / step data.length r)).filterMap
        (fun k => data[k * step data.length r]?)).map (fun d => fmt r d.time) := by
  by_cases h : data.length = 0
  · have hd : data = [] := List.length_eq_zero.mp h
    subst hd
    simp only [List.length_nil]
    have h1 := step_pos 0 r
    have hc : (0 + step 0 r - 1) / step 0 r = 0 := Nat.div_eq_of_lt (by omega)
    rw [hc]
    simp [getReducedData]
  · simp only [getReducedData, if_neg h]
    rw [filterIdx_mod_eq _ (lt_of_lt_of_le Nat.zero_lt_one (step_pos data.length r))]

theorem reduced_snd_length (fmt : TimeRange → Int → String) (data : List PricePoint)
    (r : TimeRange) :
    (getReducedData fmt data r).2.length =
      (data.length + step data.length r - 1) / step data.length r := by
  rw [reduced_snd]
  rw [List.length_map, length_filterMap_of_all_some _ _ (all_some data r), List.length_range]

theorem reduced_fst_length (fmt : TimeRange → Int → String) (data : List PricePoint)
    (r : TimeRange) :
    (getReducedData fmt data r).1.length =
      (data.length + step data.length r - 1) / step data.length r := by
  rw [reduced_fst]
  rw [List.length_map, length_filterMap_of_all_some _ _ (all_some data r), List.length_range]

/-- C1: for every raw series and time range, the reducer returns a display
series (labels and prices) of length `ceil(n / step)` where
`step = max(1, floor(n / target r))` and `step ≥ 1`; on the empty series it
returns the empty series. -/
theorem getReducedData_length_spec (fmt : TimeRange → Int → String) (data : List PricePoint)
    (r : TimeRange) :
    1 ≤ step data.length r ∧
    step data.length r = max 1 (data.length / target r) ∧
    (getReducedData fmt data r).1.length =
      (data.length + step data.length r - 1) / step data.length r ∧
    (getReducedData fmt data r).2.length =
      (data.length + step data.length r - 1) / step data.length r ∧
    getReducedData fmt [] r = ([], []) := by
  refine ⟨step_pos _ _, step_eq_target _ _, reduced_fst_length fmt data r,
    reduced_snd_length fmt data r, ?_⟩
  simp [getReducedData]

theorem ceil_step_le (t n : Nat) (ht : 2 ≤ t) :
    (n + max 1 (n / t) - 1) / max 1 (n / t) ≤ 2 * t - 1 := by
  by_cases h : n / t = 0
  · have hn : n < t := (Nat.div_eq_zero_iff (by omega)).mp h
    rw [h]
    have e1 : max 1 0 = 1 := rfl
    have e2 : (n + 1 - 1) / 1 = n := by simp
    rw [e1, e2]
    omega
  · have hq : 1 ≤ n / t := Nat.pos_of_ne_zero h
    have hmax : max 1 (n / t) = n / t := Nat.max_eq_right hq
    rw [hmax]
    have hlt : n < (n / t + 1) * t := by
      have h1 : t * (n / t) + n % t = n := Nat.div_add_mod n t
      have h2 : n % t < t := Nat.mod_lt _ (by omega)
      have h3 : (n / t + 1) * t = t * (n / t) + t := by ring
      omega
    have key : n + n / t - 1 ≤ (n / t) * (t + 1) + (t - 2) := by
      have h3 : (n / t + 1) * t = t * (n / t) + t := by ring
      have h4 : (n / t) * (t + 1) = t * (n / t) + n / t := by ring
      omega
    have hd : (n + n / t - 1) / (n / t) ≤ ((n / t) * (t + 1) + (t - 2)) / (n / t) :=
      Nat.div_le_div_right key
    have he : ((n / t) * (t + 1) + (t - 2)) / (n / t) = (t + 1) + (t - 2) / (n / t) :=
      Nat.mul_add_div (by omega) _ _
    have hf : (t - 2) / (n / t) ≤ t - 2 := Nat.div_le_self _ _
    omega

/-- A concrete label formatter (the claims do not depend on label text). -/
def fmt0 : TimeRange → Int → String := fun _ _ => ""

/-- A concrete raw series of 100 points, as in the spec scenario. -/
def data100 : List PricePoint :=
  (List.range 100).map (fun (i : Nat) => { time := (i : Int), price := (i : Rat) })

/-- C2 counterexample: on a raw series of 100 points with range `7d` the
reducer yields 8 points (step = 14, ceil(100/14) = 8), exceeding the
per-range target of 7, so the claimed bound `length ≤ target` is false. -/
theorem getReducedData_exceeds_target :
    ¬ ((getReducedData fmt0 data100 TimeRange.d7).2.length ≤ target TimeRange.d7) := by
  have h1 : data100.length = 100 := by
    unfold data100
    rw [List.length_map, List.length_range]
  have h2 : (getReducedData fmt0 data100 TimeRange.d7).2.length = 8 := by
    rw [reduced_snd_length, h1]
    decide
  rw [h2]
  decide

/-- C2 amended: the display-series length is bounded by `2 * target(r) - 1`
(47 for 24h, 13 for 7d, 59 for 30d, 89 for 90d, 103 for 1y), not by
`target(r)` itself. -/
theorem getReducedData_length_le_two_target (fmt : TimeRange → Int → String)
    (data : List PricePoint) (r : TimeRange) :
    (getReducedData fmt data r).2.length ≤ 2 * target r - 1 := by
  rw [reduced_snd_length, step_eq_target]
  exact ceil_step_le (target r) data.length (target_ge_two r)

/-- C3: for every non-empty raw series, the reducer keeps exactly the points
at indices divisible by `step`: the k-th output price is the price of the
input point at index `k * step`, index 0 is always kept, and every output
price is the price of some input point (no interpolation or averaging). -/
theorem getReducedData_decimation (fmt : TimeRange → Int → String) (data : List PricePoint)
    (r : TimeRange) (hne : data ≠ []) :
    (getReducedData fmt data r).2[0]? = (data[0]?).map (fun d => d.price) ∧
    (∀ k, k < (getReducedData fmt data r).2.length →
      (getReducedData fmt data r).2[k]? =
        (data[k * step data.length r]?).map (fun d => d.price)) ∧
    (∀ x ∈ (getReducedData fmt data r).2, x ∈ data.map (fun d => d.price)) := by
  have hc := reduced_snd_length fmt data r
  have main : ∀ k, k < (getReducedData fmt data r).2.length →
      (getReducedData fmt data r).2[k]? =
        (data[k * step data.length r]?).map (fun d => d.price) := by
    intro k hk
    have hk' : k < (data.length + step data.length r - 1) / step data.length r := hc ▸ hk
    rw [reduced_snd, List.getElem?_map,
      getElem?_filterMap_of_all_some _ _ (all_some data r) k,
      List.getElem?_range hk']
    rfl
  refine ⟨?_, main, ?_⟩
  · have hn : data.length ≠ 0 := fun h => hne (List.length_eq_zero.mp h)
    have hs := step_pos data.length r
    have hpos : 0 < (data.length + step data.length r - 1) / step data.length r :=
      (Nat.one_le_div_iff (by omega)).mpr (by omega)
    have h0 := main 0 (by omega)
    rw [Nat.zero_mul] at h0
    exact h0
  · intro x hx
    rw [reduced_snd] at hx
    rcases List.mem_map.mp hx with ⟨d, hd, hdx⟩
    rcases List.mem_filterMap.mp hd with ⟨j, _, hj⟩
    exact hdx ▸ List.mem_map_of_mem _ (List.getElem?_mem hj)

/-- C3 witness: for the 100-point series with range `7d` (step 14), the
output price at position 1 is the input price at index 14. -/
theorem getReducedData_decimation_witness :
    (getReducedData fmt0 data100 TimeRange.d7).2[1]? =
      (data100[14]?).map (fun d => d.price) := by
  have h := getReducedData_decimation fmt0 data100 TimeRange.d7 (by decide)
  have hlen : (getReducedData fmt0 data100 TimeRange.d7).2.length = 8 := by
    have h1 : data100.length = 100 := by
      unfold data100
      rw [List.length_map, List.length_range]
    rw [reduced_snd_length, h1]
    decide
  have hk : 1 < (getReducedData fmt0 data100 TimeRange.d7).2.length := by
    rw [hlen]; decide
  have h14 : 1 * step data100.length TimeRange.d7 = 14 := by
    have h1 : data100.length = 100 := by
      unfold data100
      rw [List.length_map, List.length_range]
    rw [h1]; decide
  have := h.2.1 1 hk
  rw [h14] at this
  exact this

/-- The 7-day sparkline payload `sparkline_in_7d?: { price: number[] }`. -/
structure Sparkline where
  price : List Rat
  deriving DecidableEq

/-- The `Crypto` record type exported by `crypto-tracker.tsx` (lines 12-24). -/
structure Crypto where
  id : String
  symbol : String
  name : String
  image : String
  current_price : Rat
  market_cap : Rat
  market_cap_rank : Nat
  price_change_percentage_24h : Rat
  price_change_percentage_7d_in_currency : Option Rat
  sparkline_in_7d : Option Sparkline
  favorite : Option Bool
  deriving DecidableEq

/-- Model of JavaScript `String.prototype.toLowerCase`, mapping
`Char.toLower` over the characters. -/
def jsToLowerCase (s : String) : String := ⟨s.data.map Char.toLower⟩

/-- Model of JavaScript `String.prototype.includes`: substring containment. -/
def jsIncludes (s search : String) : Bool := decide (search.data <:+: s.data)

/-- The search predicate of the filter effect in `crypto-tracker.tsx`
(lines 82-86): case-insensitive substring match on name or symbol. -/
def matchesSearch (crypto : Crypto) (searchTerm : String) : Bool :=
  jsIncludes (jsToLowerCase crypto.name) (jsToLowerCase searchTerm) ||
  jsIncludes (jsToLowerCase crypto.symbol) (jsToLowerCase searchTerm)

/-- The filtering effect of `crypto-tracker.tsx` (lines 80-91): with a truthy
(non-empty) search term, filter by `matchesSearch`; otherwise pass all
cryptos through unchanged. -/
def filterBySearch (cryptos : List Crypto) (searchTerm : String) : List Crypto :=
  if searchTerm ≠ "" then cryptos.filter (fun crypto => matchesSearch crypto searchTerm)
  else cryptos

/-- C4: with a non-empty search term, an asset is in the filtered output iff
it is in the input and the lowercased term is a substring of its lowercased
name or of its lowercased symbol; with an empty term the output is the input
unchanged. -/
theorem filterBySearch_spec (cryptos : List Crypto) (searchTerm : String) (c : Crypto) :
    (searchTerm ≠ "" →
      (c ∈ filterBySearch cryptos searchTerm ↔
        c ∈ cryptos ∧
          ((jsToLowerCase searchTerm).data <:+: (jsToLowerCase c.name).data ∨
           (jsToLowerCase searchTerm).data <:+: (jsToLowerCase c.symbol).data))) ∧
    filterBySearch cryptos "" = cryptos := by
  constructor
  · intro h
    simp only [filterBySearch, if_pos h]
    rw [List.mem_filter]
    simp [matchesSearch, jsIncludes]
  · simp [filterBySearch]

/-- A concrete asset record for witnesses. -/
def cryptoBtc : Crypto :=
  { id := "bitcoin", symbol := "btc", name := "Bitcoin", image := "",
    current_price := 50000, market_cap := 1000000, market_cap_rank := 1,
    price_change_percentage_24h := 1,
    price_change_percentage_7d_in_currency := none,
    sparkline_in_7d := none, favorite := none }

/-- A second concrete asset record for witnesses. -/
def cryptoEth : Crypto :=
  { id := "ethereum", symbol := "eth", name := "Ethereum", image := "",
    current_price := 3000, market_cap := 500000, market_cap_rank := 2,
    price_change_percentage_24h := -2,
    price_change_percentage_7d_in_currency := none,
    sparkline_in_7d := none, favorite := none }

/-- C4 witness: searching "Bit" (case-insensitively) keeps Bitcoin. -/
theorem filterBySearch_spec_witness :
    cryptoBtc ∈ filterBySearch [cryptoBtc, cryptoEth] "Bit" := by
  have h := filterBySearch_spec [cryptoBtc, cryptoEth] "Bit" cryptoBtc
  exact (h.1 (by decide)).mpr ⟨List.mem_cons_self _ _, Or.inl (by decide)⟩

/-- `toggleFavorite` from `crypto-tracker.tsx` (lines 107-115): remove the id
if present (filtering out every occurrence), otherwise append it. -/
def toggleFavorite (prev : List String) (id : String) : List String :=
  if prev.contains id then prev.filter (fun item => item != id)
  else prev ++ [id]

/-- `favorites.includes(id)` as used for the favorite flag and star icon. -/
def isFavorite (favorites : List String) (id : String) : Bool := favorites.contains id

theorem contains_iff (l : List String) (a : String) : l.contains a = true ↔ a ∈ l := by
  simp [List.contains]

theorem contains_eq_false (l : List String) (a : String) (h : a ∉ l) :
    l.contains a = false := by
  cases hb : l.contains a
  · rfl
  · exact absurd ((contains_iff l a).mp hb) h

/-- C5: toggling an id twice yields a favorites set equal (as a set) to the
original, and `isFavorite id` after one toggle is the negation of its value
before. -/
theorem toggleFavorite_involutive (prev : List String) (id : String) :
    (∀ x, x ∈ toggleFavorite (toggleFavorite prev id) id ↔ x ∈ prev) ∧
    isFavorite (toggleFavorite prev id) id = ! isFavorite prev id := by
  by_cases h : id ∈ prev
  · have hc : prev.contains id = true := (contains_iff prev id).mpr h
    have h1 : toggleFavorite prev id = prev.filter (fun item => item != id) := by
      simp only [toggleFavorite, hc, if_true]
    have h2 : id ∉ prev.filter (fun item => item != id) := by
      intro hmem
      rcases List.mem_filter.mp hmem with ⟨_, hne⟩
      simp at hne
    have hc2 : (prev.filter (fun item => item != id)).contains id = false :=
      contains_eq_false _ _ h2
    have h3 : toggleFavorite (prev.filter (fun item => item != id)) id =
        prev.filter (fun item => item != id) ++ [id] := by
      simp only [toggleFavorite, hc2]
      rfl
    constructor
    · intro x
      rw [h1, h3]
      simp only [List.mem_append, List.mem_filter, List.mem_singleton, bne_iff_ne, ne_eq,
        decide_eq_true_eq]
      constructor
      · rintro (⟨hx, _⟩ | rfl)
        · exact hx
        · exact h
      · intro hx
        by_cases hxid : x = id
        · exact Or.inr hxid
        · exact Or.inl ⟨hx, hxid⟩
    · rw [h1]
      simp only [isFavorite, hc2, hc]
      rfl
  · have hc : prev.contains id = false := contains_eq_false prev id h
    have h1 : toggleFavorite prev id = prev ++ [id] := by
      simp only [toggleFavorite, hc]
      rfl
    have hc1 : (prev ++ [id]).contains id = true :=
      (contains_iff _ id).mpr (by simp)
    have h3 : toggleFavorite (prev ++ [id]) id =
        (prev ++ [id]).filter (fun item => item != id) := by
      simp only [toggleFavorite, hc1, if_true]
    have h4 : (prev ++ [id]).filter (fun item => item != id) = prev := by
      rw [List.filter_append]
      have e1 : prev.filter (fun item => item != id) = prev :=
        List.filter_eq_self.mpr fun a ha => by
          simp only [bne_iff_ne, ne_eq, decide_eq_true_eq]
          exact fun e => h (e ▸ ha)
      have e2 : List.filter (fun item => item != id) [id] = [] := by simp
      rw [e1, e2, List.append_nil]
    constructor
    · intro x
      rw [h1, h3, h4]
    · rw [h1]
      simp only [isFavorite, hc1, hc]
      rfl

/-- C10: starting from a duplicate-free favorites list, toggling preserves
distinctness; an id already present is removed entirely (the result is the
filter dropping every occurrence), and an absent id is appended exactly once
at the end. -/
theorem toggleFavorite_nodup (prev : List String) (id : String) (h : prev.Nodup) :
    (toggleFavorite prev id).Nodup ∧
    (id ∈ prev → toggleFavorite prev id = prev.filter (fun item => item != id)) ∧
    (id ∉ prev → toggleFavorite prev id = prev ++ [id]) := by
  by_cases hm : id ∈ prev
  · have hc : prev.contains id = true := (contains_iff prev id).mpr hm
    have h1 : toggleFavorite prev id = prev.filter (fun item => item != id) := by
      simp only [toggleFavorite, hc, if_true]
    refine ⟨?_, fun _ => h1, fun hn => absurd hm hn⟩
    rw [h1]
    exact h.filter _
  · have hc : prev.contains id = false := contains_eq_false prev id hm
    have h1 : toggleFavorite prev id = prev ++ [id] := by
      simp only [toggleFavorite, hc]
      rfl
    refine ⟨?_, fun hn => absurd hn hm, fun _ => h1⟩
    rw [h1, List.nodup_append]
    refine ⟨h, List.nodup_singleton id, ?_⟩
    intro a ha hb
    rw [List.mem_singleton] at hb
    exact hm (hb ▸ ha)

/-- C10 witness: toggling an absent id appends it once at the end. -/
theorem toggleFavorite_nodup_witness :
    toggleFavorite ["bitcoin"] "ethereum" = ["bitcoin"] ++ ["ethereum"] := by
  have h := toggleFavorite_nodup ["bitcoin"] "ethereum" (by decide)
  exact h.2.2 (by decide)

/-- The state held by the `CryptoTracker` component
(`crypto-tracker.tsx` lines 27-34). -/
structure TrackerState where
  cryptos : List Crypto
  filteredCryptos : List Crypto
  searchTerm : String
  loading : Bool
  selectedCrypto : Option Crypto
  error : Option String
  favorites : List String
  deriving DecidableEq

/-- How one execution of `fetchCryptos` resolves: a parsed payload, a
non-success HTTP status (`!response.ok`), or a thrown error (network failure
or a `json()` parse failure), carrying the thrown message. -/
inductive FetchOutcome where
  | success (data : List Crypto)
  | httpNotOk
  | fetchFailure (msg : String)

/-- The net state transition of one completed run of `fetchCryptos`
(`crypto-tracker.tsx` lines 36-63): on success the favorites-tagged payload
replaces both `cryptos` and `filteredCryptos` and `error` is cleared; on any
failure only `error` (and `loading`) change. -/
def fetchCryptos (st : TrackerState) (outcome : FetchOutcome) : TrackerState :=
  match outcome with
  | FetchOutcome.success data =>
      let cryptosWithFavorites :=
        data.map (fun crypto => { crypto with favorite := some (st.favorites.contains crypto.id) })
      { st with loading := false, error := none,
                cryptos := cryptosWithFavorites, filteredCryptos := cryptosWithFavorites }
  | FetchOutcome.httpNotOk =>
      { st with loading := false,
                error := some "Failed to fetch data. API rate limit may have been reached." }
  | FetchOutcome.fetchFailure msg =>
      { st with loading := false, error := some msg }

/-- C6: whenever the listing refresh fails (non-success status, network
error, or malformed payload), the previous snapshot (`cryptos` and
`filteredCryptos`) is left exactly unchanged and an error message is
surfaced. -/
theorem fetchCryptos_failure_preserves_snapshot (st : TrackerState) (outcome : FetchOutcome)
    (h : ∀ data, outcome ≠ FetchOutcome.success data) :
    (fetchCryptos st outcome).cryptos = st.cryptos ∧
    (fetchCryptos st outcome).filteredCryptos = st.filteredCryptos ∧
    ((fetchCryptos st outcome).error).isSome = true := by
  cases outcome with
  | success data => exact absurd rfl (h data)
  | httpNotOk => exact ⟨rfl, rfl, rfl⟩
  | fetchFailure msg => exact ⟨rfl, rfl, rfl⟩

/-- A concrete tracker state holding a two-asset snapshot, as in the spec
scenario. -/
def trackerState0 : TrackerState :=
  { cryptos := [cryptoBtc, cryptoEth], filteredCryptos := [cryptoBtc, cryptoEth],
    searchTerm := "", loading := false, selectedCrypto := none, error := none,
    favorites := ["ethereum"] }

/-- C6 witness: an HTTP failure (e.g. a 429) leaves the held two-asset
snapshot untouched and surfaces an error. -/
theorem fetchCryptos_failure_preserves_snapshot_witness :
    (fetchCryptos trackerState0 FetchOutcome.httpNotOk).cryptos = trackerState0.cryptos ∧
    (fetchCryptos trackerState0 FetchOutcome.httpNotOk).filteredCryptos =
      trackerState0.filteredCryptos ∧
    ((fetchCryptos trackerState0 FetchOutcome.httpNotOk).error).isSome = true :=
  fetchCryptos_failure_preserves_snapshot trackerState0 FetchOutcome.httpNotOk
    (fun _ hcontra => FetchOutcome.noConfusion hcontra)

/-- The `market_data` block of the detail payload
(`crypto-detail.tsx` interface `CryptoDetailData`, lines 23-39).  Note it has
60d and 1y percentage fields but no 90d field. -/
structure MarketData where
  current_price : Rat
  price_change_percentage_24h : Rat
  price_change_percentage_7d : Rat
  price_change_percentage_30d : Rat
  price_change_percentage_60d : Rat
  price_change_percentage_1y : Rat
  market_cap : Rat
  total_volume : Rat
  circulating_supply : Rat
  total_supply : Rat
  max_supply : Rat
  ath : Rat
  atl : Rat
  deriving DecidableEq

/-- The detail payload (`CryptoDetailData`), with the presentational pieces
(description, links) as strings. -/
structure CryptoDetailData where
  description : String
  homepage : List String
  market_data : MarketData
  deriving DecidableEq

/-- The state of the `CryptoDetail` component
(`crypto-detail.tsx` lines 43-47). -/
structure DetailState where
  detailData : Option CryptoDetailData
  loading : Bool
  error : Option String
  timeRange : TimeRange
  chartData : List PricePoint
  deriving DecidableEq

/-- How one run of `fetchHistoricalData` resolves: a parsed
`{ prices: [[timestampMs, price], ...] }` payload, or a thrown error
(non-success status, network failure, or parse failure). -/
inductive HistOutcome where
  | success (prices : List (Int × Rat))
  | failure (msg : String)

/-- The fetch window in days selected by the `switch (range)` in
`fetchHistoricalData` (`crypto-detail.tsx` lines 80-99). -/
def daysFor : TimeRange → Nat
  | TimeRange.h24 => 1
  | TimeRange.d7 => 7
  | TimeRange.d30 => 30
  | TimeRange.d90 => 90
  | TimeRange.y1 => 365

/-- The net state transition of one completed run of `fetchHistoricalData`
(`crypto-detail.tsx` lines 78-120): on success the formatted prices replace
`chartData` and the range is installed; on failure the error is only logged
to the console (`console.error`) and the state is left unchanged — no error
state is set. -/
def fetchHistoricalData (st : DetailState) (range : TimeRange) (outcome : HistOutcome) :
    DetailState :=
  match outcome with
  | HistOutcome.success prices =>
      { st with
          chartData := prices.map (fun item => { time := item.1, price := item.2 }),
          timeRange := range }
  | HistOutcome.failure _ => st

/-- How one run of `fetchCryptoDetail` resolves: a parsed detail payload
(after which `fetchHistoricalData` runs and resolves with its own outcome),
a non-success HTTP status, or a thrown error. -/
inductive DetailOutcome where
  | success (data : CryptoDetailData) (hist : HistOutcome)
  | httpNotOk
  | fetchFailure (msg : String)

/-- The net state transition of one completed run of `fetchCryptoDetail`
(`crypto-detail.tsx` lines 52-76): on success the detail payload is
installed, the error cleared, and the historical fetch runs (it catches its
own errors, so it never throws into this handler); on failure an error
message is set. -/
def fetchCryptoDetail (st : DetailState) (outcome : DetailOutcome) : DetailState :=
  match outcome with
  | DetailOutcome.success data hist =>
      let st1 := { st with error := none, detailData := some data }
      let st2 := fetchHistoricalData st1 st1.timeRange hist
      { st2 with loading := false }
  | DetailOutcome.httpNotOk =>
      { st with
          error := some "Failed to fetch detailed data. API rate limit may have been reached.",
          loading := false }
  | DetailOutcome.fetchFailure msg =>
      { st with error := some msg, loading := false }

/-- A concrete detail state with no pending error. -/
def detailState0 : DetailState :=
  { detailData := none, loading := false, error := none,
    timeRange := TimeRange.d30, chartData := [] }

/-- C7 counterexample: a failed historical-series fetch does NOT surface an
error state — starting from a state with `error = none`, the failure leaves
the state (and in particular its `error` field) exactly unchanged, so no
user-visible message appears. -/
theorem fetchHistoricalData_failure_silent :
    (fetchHistoricalData detailState0 TimeRange.d30
        (HistOutcome.failure "Failed to fetch chart data")).error = none ∧
    fetchHistoricalData detailState0 TimeRange.d30
        (HistOutcome.failure "Failed to fetch chart data") = detailState0 :=
  ⟨rfl, rfl⟩

/-- C7 amended: FetchErrors from the listing refresh and the detail fetch
are surfaced as user-visible error messages, but a failed historical-series
fetch leaves the detail state unchanged (its error is only logged to the
console), so no error is surfaced for that case. -/
theorem fetchErrors_surfaced_amended (st : TrackerState) (dst : DetailState) (msg : String)
    (r : TimeRange) :
    ((fetchCryptos st FetchOutcome.httpNotOk).error).isSome = true ∧
    ((fetchCryptos st (FetchOutcome.fetchFailure msg)).error).isSome = true ∧
    ((fetchCryptoDetail dst DetailOutcome.httpNotOk).error).isSome = true ∧
    ((fetchCryptoDetail dst (DetailOutcome.fetchFailure msg)).error).isSome = true ∧
    fetchHistoricalData dst r (HistOutcome.failure msg) = dst :=
  ⟨rfl, rfl, rfl, rfl, rfl⟩

/-- The favorites-loading effect from `crypto-tracker.tsx` (lines 66-70):
`localStorage.getItem` returns the stored value or null; if it is truthy,
`JSON.parse` runs *unguarded* — a parse failure propagates to the caller.
`parse` abstracts `JSON.parse` plus the expected array-of-strings shape. -/
def loadFavorites (stored : Option String)
    (parse : String → Except String (List String)) : Except String (List String) :=
  match stored with
  | none => Except.ok []
  | some raw => if raw = "" then Except.ok [] else parse raw

/-- C8 counterexample: with a malformed persisted value, the load does not
fall back to the empty set — the `JSON.parse` failure propagates as an
error, contradicting the claim that loading never raises. -/
theorem loadFavorites_malformed_raises :
    loadFavorites (some "not-json") (fun _ => Except.error "SyntaxError") =
      Except.error "SyntaxError" ∧
    loadFavorites (some "not-json") (fun _ => Except.error "SyntaxError") ≠
      Except.ok ([] : List String) :=
  ⟨rfl, fun hcontra => Except.noConfusion hcontra⟩

/-- C8 amended: when the persisted value is absent (or empty, which is
falsy), the store initializes to the empty set; when it is present, the
result is exactly what `JSON.parse` yields — a malformed value therefore
propagates its parse error instead of falling back to the empty set. -/
theorem loadFavorites_behavior (parse : String → Except String (List String)) (raw : String) :
    loadFavorites none parse = Except.ok [] ∧
    loadFavorites (some "") parse = Except.ok [] ∧
    (raw ≠ "" → loadFavorites (some raw) parse = parse raw) := by
  refine ⟨rfl, rfl, fun h => ?_⟩
  simp only [loadFavorites, if_neg h]

/-- C8 witness: a well-formed persisted value loads as its parse result. -/
theorem loadFavorites_behavior_witness :
    loadFavorites (some "x") (fun s => Except.ok [s]) = Except.ok ["x"] := by
  have h := loadFavorites_behavior (fun s => Except.ok [s]) "x"
  exact h.2.2 (by decide)

/-- The suffix selected by the nested ternary in `crypto-detail.tsx`
(lines 175-178): `90d` maps to `"60d"`. -/
def changeSuffix (r : TimeRange) : String :=
  if r = TimeRange.h24 then "24h"
  else if r = TimeRange.d7 then "7d"
  else if r = TimeRange.d30 then "30d"
  else if r = TimeRange.d90 then "60d"
  else "1y"

/-- Dynamic field lookup `detailData.market_data[key]` restricted to the
percentage-change fields present on the `market_data` interface. -/
def marketDataPercentField (md : MarketData) (key : String) : Option Rat :=
  if key = "price_change_percentage_24h" then some md.price_change_percentage_24h
  else if key = "price_change_percentage_7d" then some md.price_change_percentage_7d
  else if key = "price_change_percentage_30d" then some md.price_change_percentage_30d
  else if key = "price_change_percentage_60d" then some md.price_change_percentage_60d
  else if key = "price_change_percentage_1y" then some md.price_change_percentage_1y
  else none

/-- The `priceChangePercent` computation of `crypto-detail.tsx`
(lines 175-178): index `market_data` by the string
`price_change_percentage_${suffix}`. -/
def priceChangePercent (dd : CryptoDetailData) (r : TimeRange) : Option Rat :=
  marketDataPercentField dd.market_data ("price_change_percentage_" ++ changeSuffix r)

/-- C9: the 90d range reads the upstream 60d percentage-change field, while
every other range reads its matching field. -/
theorem priceChangePercent_field_mapping (dd : CryptoDetailData) :
    priceChangePercent dd TimeRange.d90 = some dd.market_data.price_change_percentage_60d ∧
    priceChangePercent dd TimeRange.h24 = some dd.market_data.price_change_percentage_24h ∧
    priceChangePercent dd TimeRange.d7 = some dd.market_data.price_change_percentage_7d ∧
    priceChangePercent dd TimeRange.d30 = some dd.market_data.price_change_percentage_30d ∧
    priceChangePercent dd TimeRange.y1 = some dd.market_data.price_change_percentage_1y :=
  ⟨rfl, rfl, rfl, rfl, rfl⟩

end Tracker
